import Mathlib

/-!
Verification of the termbox terminal library core (`src/api.go`) against its
natural-language specification.

The Go code is shallowly embedded: the global mutable session state becomes an
explicit record that every operation takes and returns, Go `int` becomes `Int`
(negative coordinates matter to the bounds contracts), the cell grids become
lists with an explicit length invariant, terminal output becomes a symbolic
list of emitted escape items, and operations that can panic (integer division
by zero, slice bounds) return `Option`.
-/

set_option maxHeartbeats 1000000

namespace Termbox

/-- A grid cell: a character plus foreground and background attributes.
Go: `type Cell struct { Ch rune; Fg, Bg Attribute }`; `rune` is a signed
32-bit integer and `Attribute` an unsigned 16-bit one, embedded as `Int`
and `Nat` (no arithmetic overflows them in this code). -/
structure Cell where
  Ch : Int
  Fg : Nat
  Bg : Nat
deriving DecidableEq, Repr

instance : Inhabited Cell := ⟨⟨0, 0, 0⟩⟩

/-- A cell grid: row-major list of cells with its dimensions.
Go: the `cellbuffer` struct holding `width`, `height` and `cells`. -/
structure cellbuffer where
  width : Int
  height : Int
  cells : List Cell
deriving DecidableEq, Repr

/-- Go `PutCell(x, y, cell)` (src/api.go): silently returns when the
coordinates are out of range, otherwise writes the cell at row-major index
`y*width + x` of the back grid. -/
def PutCell (b : cellbuffer) (x y : Int) (cell : Cell) : cellbuffer :=
  if x < 0 || x ≥ b.width then b
  else if y < 0 || y ≥ b.height then b
  else { b with cells := b.cells.set (y * b.width + x).toNat cell }

/-- Go `ChangeCell(x, y, ch, fg, bg)` (src/api.go): builds the cell from its
fields and delegates to `PutCell`. -/
def ChangeCell (b : cellbuffer) (x y : Int) (ch : Int) (fg bg : Nat) : cellbuffer :=
  PutCell b x y ⟨ch, fg, bg⟩

/-- The grid length invariant established by init/clear/resize:
the cell list has exactly `width * height` entries. -/
def gridInv (b : cellbuffer) : Prop :=
  0 ≤ b.width ∧ 0 ≤ b.height ∧ (b.cells.length : Int) = b.width * b.height

/-- Go slice expression `l[a:b]`: panics (here `none`) unless
`0 ≤ a ≤ b ≤ len(l)`, otherwise yields the elements from index `a` up to
excluding `b`. -/
def goSlice (l : List Cell) (a b : Int) : Option (List Cell) :=
  if 0 ≤ a ∧ a ≤ b ∧ b ≤ (l.length : Int) then
    some ((l.drop a.toNat).take (b - a).toNat)
  else none

/-- Go `copy(dst[a:b], row)`: panics (here `none`) unless `0 ≤ a ≤ b ≤
len(dst)`; copies `min(b-a, len(row))` elements of `row` into `dst`
starting at index `a`. -/
def goCopy (dst : List Cell) (a b : Int) (row : List Cell) : Option (List Cell) :=
  if 0 ≤ a ∧ a ≤ b ∧ b ≤ (dst.length : Int) then
    let n := min (b - a).toNat row.length
    some (dst.take a.toNat ++ row.take n ++ dst.drop (a.toNat + n))
  else none

/-- The row-copy loop of Go `Blit` (src/api.go):
`for i := 0; i < h; i++ { copy(dst[dsti:dsti+w], src[srci:srci+w]); dsti += width; srci += w }`.
`W` is the back-grid width, `w` the blit width, the `Nat` argument the number
of rows left. -/
def blit_loop (W w : Int) (cells : List Cell) :
    Nat → Int → Int → List Cell → Option (List Cell)
  | 0, _, _, dst => some dst
  | Nat.succ i, dsti, srci, dst =>
    match goSlice cells srci (srci + w) with
    | none => none
    | some row =>
      match goCopy dst dsti (dsti + w) row with
      | none => none
      | some dst1 => blit_loop W w cells i (dsti + W) (srci + w) dst1

/-- Go `Blit(x, y, w, cells)` (src/api.go): derives `h := len(cells) / w`
(Go integer division truncates toward zero, hence `Int.tdiv`; division by
zero panics, hence `none`), discards the whole call if the `w × h` rectangle
at `(x,y)` crosses a grid boundary, and otherwise copies `h` rows of `w`
cells into the back grid. -/
def Blit (b : cellbuffer) (x y w : Int) (cells : List Cell) : Option cellbuffer :=
  if w = 0 then none
  else if x + w > b.width || x < 0 then some b
  else if y + Int.tdiv (cells.length : Int) w > b.height || y < 0 then some b
  else
    match blit_loop b.width w cells (Int.tdiv (cells.length : Int) w).toNat
        (y * b.width + x) 0 b.cells with
    | some dst => some { b with cells := dst }
    | none => none

/-- Symbolic terminal output: one constructor per escape-capability emission
the code performs (`funcs[t_show_cursor]`, `funcs[t_hide_cursor]`, the
`fmt.Fprintf(funcs[t_move_cursor], row, col)` template with its two 1-based
arguments in order, attribute sequences, characters). -/
inductive EmitItem where
  | show_cursor : EmitItem
  | hide_cursor : EmitItem
  | move_cursor (row : Int) (col : Int) : EmitItem
  | sgr (fg bg : Nat) : EmitItem
  | char (ch : Int) : EmitItem
deriving DecidableEq, Repr

/-- Go `type InputMode int`. -/
abbrev InputMode := Int

/-- Go `InputCurrent InputMode = iota` (0). -/
def InputCurrent : InputMode := 0

/-- Go `InputEsc` (1). -/
def InputEsc : InputMode := 1

/-- Go `InputAlt` (2). -/
def InputAlt : InputMode := 2

/-- Modelled from the spec: the hidden-cursor sentinel coordinate, the fixed
negative value of the sentinel pair (the constant lives outside src/api.go;
the `HideCursor` doc comment in src/api.go pins it to -1 via
"The shortcut for SetCursor(-1, -1)"). -/
def cursor_hidden : Int := -1

/-- Modelled from the spec: the invalid-coordinate sentinel used to
invalidate the last-emitted-position cache at the start of `Present`
(the constant lives outside src/api.go; any value distinct from every valid
coordinate serves). -/
def coord_invalid : Int := -2

/-- The process-wide mutable session state: the two grids, the logical
cursor, the last-emitted position/attribute caches, the clear attributes,
the input mode, the cached terminal size, the draw-side coalescing
resize-signal slot together with the geometry the size query would currently
report, and the pending output buffer. -/
structure TB where
  back_buffer : cellbuffer
  front_buffer : cellbuffer
  cursor_x : Int
  cursor_y : Int
  lastx : Int
  lasty : Int
  lastattr : Option (Nat × Nat)
  foreground : Nat
  background : Nat
  input_mode : InputMode
  termw : Int
  termh : Int
  sigwinch_draw : Bool
  dev_w : Int
  dev_h : Int
  outbuf : List EmitItem
deriving DecidableEq, Repr

/-- Modelled from the spec: the cursor is hidden exactly when the coordinate
pair equals the hidden sentinel pair (§4.4: coordinates equal to the
dedicated hidden sentinel, a fixed negative pair, represent no cursor drawn;
the helper lives outside src/api.go). -/
def is_cursor_hidden (x y : Int) : Bool :=
  x == cursor_hidden && y == cursor_hidden

/-- Go `SetCursor(x, y)` (src/api.go): show-cursor on hidden-to-visible,
hide-cursor on visible-to-hidden, then store the new position and, when it
is visible, emit the move-cursor template — whose arguments in the source
are `cursor_y+1, cursor_y+1` (both the row slot and the column slot receive
the y coordinate). -/
def SetCursor (s : TB) (x y : Int) : TB :=
  let s1 := if is_cursor_hidden s.cursor_x s.cursor_y && !(is_cursor_hidden x y) then
      { s with outbuf := s.outbuf ++ [EmitItem.show_cursor] }
    else s
  let s2 := if !(is_cursor_hidden s1.cursor_x s1.cursor_y) && is_cursor_hidden x y then
      { s1 with outbuf := s1.outbuf ++ [EmitItem.hide_cursor] }
    else s1
  let s3 := { s2 with cursor_x := x, cursor_y := y }
  if !(is_cursor_hidden s3.cursor_x s3.cursor_y) then
    { s3 with outbuf := s3.outbuf ++
        [EmitItem.move_cursor (s3.cursor_y + 1) (s3.cursor_y + 1)] }
  else s3

/-- Go `HideCursor()` (src/api.go): the shortcut for
`SetCursor(cursor_hidden, cursor_hidden)`. -/
def HideCursor (s : TB) : TB :=
  SetCursor s cursor_hidden cursor_hidden

/-- Go `SetInputMode(mode)` (src/api.go): stores the mode unless it is
`InputCurrent`, then returns the stored mode. -/
def SetInputMode (s : TB) (mode : InputMode) : TB × InputMode :=
  if mode ≠ InputCurrent then
    let s1 := { s with input_mode := mode }
    (s1, s1.input_mode)
  else (s, s.input_mode)

/-- Go `SetClearAttributes(fg, bg)` (src/api.go). -/
def SetClearAttributes (s : TB) (fg bg : Nat) : TB :=
  { s with foreground := fg, background := bg }

/-- Modelled from the spec: `clear()` resets every cell to a blank character
(space, 32) with the session clear-attributes (§4.1; the `cellbuffer`
methods live outside src/api.go). -/
def cellbuffer.clear (b : cellbuffer) (fg bg : Nat) : cellbuffer :=
  { b with cells := List.replicate (b.width * b.height).toNat ⟨32, fg, bg⟩ }

/-- Modelled from the spec: resize reallocates a cleared grid of the new
geometry, discarding the old content without reflowing it (§3, §4.1; the
helper lives outside src/api.go). -/
def cellbuffer.resize (w h : Int) (fg bg : Nat) : cellbuffer :=
  ⟨w, h, List.replicate (w * h).toNat ⟨32, fg, bg⟩⟩

/-- Modelled from the spec: `update_size` queries the current geometry and
resizes both grids to it (§4.2; the helper lives outside src/api.go). -/
def update_size (s : TB) : TB :=
  { s with
    termw := s.dev_w
    termh := s.dev_h
    back_buffer := cellbuffer.resize s.dev_w s.dev_h s.foreground s.background
    front_buffer := cellbuffer.resize s.dev_w s.dev_h s.foreground s.background }

/-- Modelled from the spec: `send_attr` emits an attribute sequence only
when the pair differs from the last emitted pair, then records it (§4.2; the
helper lives outside src/api.go). -/
def send_attr (s : TB) (fg bg : Nat) : TB :=
  if s.lastattr = some (fg, bg) then s
  else
    { s with
      outbuf := s.outbuf ++ [EmitItem.sgr fg bg]
      lastattr := some (fg, bg) }

/-- Modelled from the spec: `send_char` emits a move to the cell position
(1-based row `y+1`, column `x+1`) followed by the character, recording the
position (§4.2, §4.3; the helper lives outside src/api.go). -/
def send_char (s : TB) (x y : Int) (ch : Int) : TB :=
  { s with
    outbuf := s.outbuf ++ [EmitItem.move_cursor (y + 1) (x + 1), EmitItem.char ch]
    lastx := x
    lasty := y }

/-- One iteration of the `Present` diff loop body (src/api.go): at cell
offset `y*W + x`, skip when back equals front, otherwise emit attribute and
character and copy the back cell into the front grid. -/
def presentCell (W : Nat) (s : TB) (x y : Nat) : TB :=
  let cell_offset := y * W + x
  let back := s.back_buffer.cells.getD cell_offset default
  let front := s.front_buffer.cells.getD cell_offset default
  if back = front then s
  else
    let s1 := send_char (send_attr s back.Fg back.Bg) (x : Int) (y : Int) back.Ch
    { s1 with front_buffer :=
        { s1.front_buffer with cells := s1.front_buffer.cells.set cell_offset back } }

/-- The inner x-loop of `Present` over a list of columns of row `y`. -/
def presentCells (W y : Nat) (xs : List Nat) (s : TB) : TB :=
  xs.foldl (fun u x => presentCell W u x y) s

/-- The outer y-loop of `Present` over a list of rows. -/
def presentRows (W : Nat) (ys : List Nat) (s : TB) : TB :=
  ys.foldl (fun t y => presentCells W y (List.range W) t) s

/-- The full row-major diff scan of `Present` (src/api.go): for each row
`y < front.height` and column `x < front.width`. -/
def presentLoop (s : TB) : TB :=
  presentRows s.front_buffer.width.toNat
    (List.range s.front_buffer.height.toNat) s

/-- The opening of Go `Present` (src/api.go): invalidate the last-emitted
position cache, then non-blockingly consume the draw-side resize slot,
resizing both grids when it was set. -/
def present_prelude (s : TB) : TB :=
  let s1 := { s with lastx := coord_invalid, lasty := coord_invalid }
  if s1.sigwinch_draw then update_size { s1 with sigwinch_draw := false } else s1

/-- The remainder of Go `Present` (src/api.go): run the diff scan, emit the
final move to the logical cursor when it is visible (row `cursor_y+1`,
column `cursor_x+1`), and flush the output buffer as one write. -/
def present_finish (s : TB) : TB × List EmitItem :=
  let s3 := presentLoop s
  let s4 := if !(is_cursor_hidden s3.cursor_x s3.cursor_y) then
      { s3 with outbuf := s3.outbuf ++
          [EmitItem.move_cursor (s3.cursor_y + 1) (s3.cursor_x + 1)] }
    else s3
  ({ s4 with outbuf := [] }, s4.outbuf)

/-- Go `Present()` (src/api.go): prelude (cache invalidation and resize
consumption) followed by diff, cursor move and flush. The returned list is
the flushed output. -/
def Present (s : TB) : TB × List EmitItem :=
  present_finish (present_prelude s)

/-- Go `Clear()` (src/api.go): non-blockingly consume the draw-side resize
slot (resizing on a pending signal), then clear the back grid. -/
def Clear (s : TB) : TB :=
  let s1 := if s.sigwinch_draw then update_size { s with sigwinch_draw := false }
    else s
  { s1 with back_buffer := s1.back_buffer.clear s1.foreground s1.background }

/-- The session-state invariant used by the `Present` theorems: nonnegative
dimensions, both grids of identical dimensions, cell-list lengths matching
the dimensions, and a nonnegative device geometry. -/
def TBinv (s : TB) : Prop :=
  0 ≤ s.back_buffer.width ∧ 0 ≤ s.back_buffer.height ∧
  s.front_buffer.width = s.back_buffer.width ∧
  s.front_buffer.height = s.back_buffer.height ∧
  (s.back_buffer.cells.length : Int) = s.back_buffer.width * s.back_buffer.height ∧
  (s.front_buffer.cells.length : Int) = s.front_buffer.width * s.front_buffer.height ∧
  0 ≤ s.dev_w ∧ 0 ≤ s.dev_h

/-- A concrete 1×1 session state (hidden cursor, empty output, no pending
resize) used by the concrete instantiations below. -/
def tb1 : TB :=
  { back_buffer := ⟨1, 1, [⟨32, 8, 8⟩]⟩
    front_buffer := ⟨1, 1, [⟨32, 8, 8⟩]⟩
    cursor_x := cursor_hidden
    cursor_y := cursor_hidden
    lastx := coord_invalid
    lasty := coord_invalid
    lastattr := none
    foreground := 8
    background := 8
    input_mode := 1
    termw := 1
    termh := 1
    sigwinch_draw := false
    dev_w := 1
    dev_h := 1
    outbuf := [] }

/-- The state `tb1` with a pending draw-side resize signal and a 2×2 device
geometry. -/
def tb1r : TB := { tb1 with sigwinch_draw := true, dev_w := 2, dev_h := 2 }

/-- Fields of the session state that the diff loop never changes. -/
def framePreserved (s t : TB) : Prop :=
  t.back_buffer = s.back_buffer ∧
  t.front_buffer.width = s.front_buffer.width ∧
  t.front_buffer.height = s.front_buffer.height ∧
  t.front_buffer.cells.length = s.front_buffer.cells.length ∧
  t.cursor_x = s.cursor_x ∧ t.cursor_y = s.cursor_y ∧
  t.sigwinch_draw = s.sigwinch_draw ∧
  t.dev_w = s.dev_w ∧ t.dev_h = s.dev_h ∧
  t.foreground = s.foreground ∧ t.background = s.background

/-- Phases of the background InputReader task (the goroutine of `Init`,
src/api.go lines 216–223): about to call `in.Read(buf)`, about to send the
filled slice on `input_comm`, or blocked receiving the buffer back. -/
inductive RdPhase where
  | toRead : RdPhase
  | toSend : RdPhase
  | waiting : RdPhase
deriving DecidableEq, Repr

/-- Phases of the `PollEvent` consumer at the channel (src/api.go lines
355–361): blocked receiving a slice, about to append its bytes into the
pending buffer, or about to send the slice back. -/
inductive CoPhase where
  | waiting : CoPhase
  | toAppend : CoPhase
  | toReturn : CoPhase
deriving DecidableEq, Repr

/-- Observable events of the buffer hand-back protocol. -/
inductive PPEvent where
  | read : PPEvent
  | append : PPEvent
  | handback : PPEvent
deriving DecidableEq, Repr

/-- Joint state of the two tasks plus the event history (most recent
first). -/
structure PPState where
  rd : RdPhase
  co : CoPhase
  trace : List PPEvent
deriving DecidableEq, Repr

/-- Small-step semantics of the protocol: the reader reads, the unbuffered
`input_comm` rendezvous hands the slice over (both parties must be at the
channel), the consumer appends a copy of the bytes into `inbuf`, and the
rendezvous hands the slice back, releasing the reader into its next
iteration. -/
inductive PPStep : PPState → PPState → Prop where
  | read (c : CoPhase) (t : List PPEvent) :
      PPStep ⟨RdPhase.toRead, c, t⟩ ⟨RdPhase.toSend, c, PPEvent.read :: t⟩
  | handoff (t : List PPEvent) :
      PPStep ⟨RdPhase.toSend, CoPhase.waiting, t⟩
        ⟨RdPhase.waiting, CoPhase.toAppend, t⟩
  | append (r : RdPhase) (t : List PPEvent) :
      PPStep ⟨r, CoPhase.toAppend, t⟩ ⟨r, CoPhase.toReturn, PPEvent.append :: t⟩
  | handback (t : List PPEvent) :
      PPStep ⟨RdPhase.waiting, CoPhase.toReturn, t⟩
        ⟨RdPhase.toRead, CoPhase.waiting, PPEvent.handback :: t⟩

/-- The initial protocol state: the reader enters its loop about to read,
the consumer is not yet at the channel (equivalently, waiting), nothing has
happened. -/
def PPinit : PPState := ⟨RdPhase.toRead, CoPhase.waiting, []⟩

/-- Reachability from the initial state. -/
def PPReachable (s : PPState) : Prop :=
  Relation.ReflTransGen PPStep PPinit s

/-- The protocol invariant: the joint phase determines the exact
relationship between the numbers of reads, appends and hand-backs. -/
def PPInv (s : PPState) : Prop :=
  (s.rd = RdPhase.toRead ∧ s.co = CoPhase.waiting ∧
    s.trace.count PPEvent.read = s.trace.count PPEvent.handback ∧
    s.trace.count PPEvent.append = s.trace.count PPEvent.handback) ∨
  (s.rd = RdPhase.toSend ∧ s.co = CoPhase.waiting ∧
    s.trace.count PPEvent.read = s.trace.count PPEvent.handback + 1 ∧
    s.trace.count PPEvent.append = s.trace.count PPEvent.handback) ∨
  (s.rd = RdPhase.waiting ∧ s.co = CoPhase.toAppend ∧
    s.trace.count PPEvent.read = s.trace.count PPEvent.handback + 1 ∧
    s.trace.count PPEvent.append = s.trace.count PPEvent.handback) ∨
  (s.rd = RdPhase.waiting ∧ s.co = CoPhase.toReturn ∧
    s.trace.count PPEvent.read = s.trace.count PPEvent.handback + 1 ∧
    s.trace.count PPEvent.append = s.trace.count PPEvent.handback + 1)

/-- In-range index arithmetic: a coordinate pair inside the grid yields a
row-major index below the cell-list length. -/
theorem index_lt_length (b : cellbuffer) (x y : Int)
    (hinv : gridInv b) (hx0 : 0 ≤ x) (hxw : x < b.width)
    (hy0 : 0 ≤ y) (hyh : y < b.height) :
    (y * b.width + x).toNat < b.cells.length := by
  obtain ⟨hw, hh, hlen⟩ := hinv
  have hidx : 0 ≤ y * b.width + x := by positivity
  have h1 : y * b.width + x < b.width * b.height := by
    have h2 : y + 1 ≤ b.height := hyh
    have h3 : (y + 1) * b.width ≤ b.height * b.width := by
      apply mul_le_mul_of_nonneg_right h2 (by linarith)
    nlinarith
  omega

/-- Claim C2: `PutCell` writes the cell at row-major index `y*width+x`
exactly when `0 ≤ x < width` and `0 ≤ y < height`; any out-of-range call
(negative coordinates included) leaves the grid untouched and cannot fail;
and `ChangeCell` is exactly `PutCell` on the cell built from its fields. -/
theorem putCell_changeCell_spec (b : cellbuffer) (x y : Int) (cell : Cell)
    (ch : Int) (fg bg : Nat) (hinv : gridInv b) :
    ((0 ≤ x ∧ x < b.width ∧ 0 ≤ y ∧ y < b.height) →
      PutCell b x y cell =
        { b with cells := b.cells.set (y * b.width + x).toNat cell } ∧
      (PutCell b x y cell).cells[(y * b.width + x).toNat]? = some cell ∧
      ∀ p : Nat, p ≠ (y * b.width + x).toNat →
        (PutCell b x y cell).cells[p]? = b.cells[p]?) ∧
    (¬(0 ≤ x ∧ x < b.width ∧ 0 ≤ y ∧ y < b.height) → PutCell b x y cell = b) ∧
    ChangeCell b x y ch fg bg = PutCell b x y ⟨ch, fg, bg⟩ := by
  refine ⟨?_, ?_, rfl⟩
  · rintro ⟨hx0, hxw, hy0, hyh⟩
    have hlt := index_lt_length b x y hinv hx0 hxw hy0 hyh
    have hput : PutCell b x y cell =
        { b with cells := b.cells.set (y * b.width + x).toNat cell } := by
      unfold PutCell
      rw [if_neg, if_neg] <;> simp <;> omega
    refine ⟨hput, ?_, ?_⟩
    · rw [hput]
      simpa using List.getElem?_set_self (l := b.cells)
        (i := (y * b.width + x).toNat) (a := cell) hlt
    · intro p hp
      rw [hput]
      exact List.getElem?_set_ne (fun h => hp h.symm)
  · intro hout
    unfold PutCell
    by_cases h1 : x < 0 ∨ x ≥ b.width
    · rw [if_pos (by simpa [decide_eq_true_eq] using h1)]
    · have h2 : y < 0 ∨ y ≥ b.height := by
        push_neg at h1
        by_contra h3
        push_neg at h3
        exact hout ⟨h1.1, h1.2, h3.1, h3.2⟩
      rw [if_neg, if_pos]
      · simpa [decide_eq_true_eq] using h2
      · simp only [Bool.or_eq_true, decide_eq_true_eq]
        push_neg at h1
        omega

/-- Length of a list with a segment overwritten in place. -/
theorem seg_length (dst mid : List Cell) (k : Nat) (h : k + mid.length ≤ dst.length) :
    (dst.take k ++ (mid ++ dst.drop (k + mid.length))).length = dst.length := by
  simp only [List.length_append, List.length_take, List.length_drop]
  omega

/-- Index lookup in a list with a segment overwritten in place: inside the
segment the new elements appear, outside the original ones. -/
theorem seg_getElem (dst mid : List Cell) (k : Nat)
    (h : k + mid.length ≤ dst.length) (p : Nat) :
    (dst.take k ++ (mid ++ dst.drop (k + mid.length)))[p]? =
      if k ≤ p ∧ p < k + mid.length then mid[p - k]? else dst[p]? := by
  have hk : (dst.take k).length = k := by
    simp only [List.length_take]
    omega
  by_cases hp1 : p < k
  · rw [List.getElem?_append_left (show p < (dst.take k).length by rw [hk]; omega)]
    rw [if_neg (by omega), List.getElem?_take_of_lt hp1]
  · rw [List.getElem?_append_right (show (dst.take k).length ≤ p by rw [hk]; omega)]
    rw [hk]
    by_cases hp2 : p < k + mid.length
    · rw [List.getElem?_append_left (by omega : p - k < mid.length)]
      rw [if_pos ⟨by omega, hp2⟩]
    · rw [List.getElem?_append_right (by omega : mid.length ≤ p - k)]
      rw [List.getElem?_drop, if_neg (by omega)]
      congr 1
      omega

/-- A valid `goSlice` call yields the expected window into the list. -/
theorem goSlice_eq (l : List Cell) (a w : Int) (ha : 0 ≤ a) (hw : 0 ≤ w)
    (hb : a + w ≤ (l.length : Int)) :
    ∃ row, goSlice l a (a + w) = some row ∧ row.length = w.toNat ∧
      ∀ j : Nat, j < w.toNat → row[j]? = l[a.toNat + j]? := by
  refine ⟨(l.drop a.toNat).take (a + w - a).toNat, ?_, ?_, ?_⟩
  · unfold goSlice
    rw [if_pos ⟨ha, by omega, hb⟩]
  · simp only [List.length_take, List.length_drop]
    omega
  · intro j hj
    rw [List.getElem?_take_of_lt (by omega), List.getElem?_drop]

/-- A valid `goCopy` call with an exactly-fitting row overwrites the target
segment in place. -/
theorem goCopy_eq (dst row : List Cell) (a w : Int) (ha : 0 ≤ a) (hw : 0 ≤ w)
    (hlen : a + w ≤ (dst.length : Int)) (hrow : row.length = w.toNat) :
    goCopy dst a (a + w) row =
      some (dst.take a.toNat ++ (row ++ dst.drop (a.toNat + row.length))) := by
  unfold goCopy
  rw [if_pos ⟨ha, by omega, hlen⟩]
  have hn : min (a + w - a).toNat row.length = row.length := by omega
  simp only [hn, List.take_length, List.append_assoc]

/-- Full characterization of the `Blit` row-copy loop: with valid source and
destination row bounds it succeeds, preserves the grid length, writes each of
the `i` rows from the source cells, and leaves every position outside those
rows untouched. -/
theorem blit_loop_spec (W w : Int) (cells : List Cell) :
    ∀ (i : Nat) (dsti srci : Int) (dst : List Cell),
    0 < w → w ≤ W → 0 ≤ srci → 0 ≤ dsti →
    (∀ r : Nat, r < i → srci + r * w + w ≤ (cells.length : Int)) →
    (∀ r : Nat, r < i → dsti + r * W + w ≤ (dst.length : Int)) →
    ∃ dst', blit_loop W w cells i dsti srci dst = some dst' ∧
      dst'.length = dst.length ∧
      (∀ r : Nat, r < i → ∀ j : Int, 0 ≤ j → j < w →
        dst'[(dsti + r * W + j).toNat]? = cells[(srci + r * w + j).toNat]?) ∧
      (∀ p : Nat, (∀ r : Nat, r < i →
          ¬(dsti + r * W ≤ (p : Int) ∧ (p : Int) < dsti + r * W + w)) →
        dst'[p]? = dst[p]?) := by
  intro i
  induction i with
  | zero =>
    intro dsti srci dst _ _ _ _ _ _
    exact ⟨dst, rfl, rfl, fun r hr => absurd hr (Nat.not_lt_zero r), fun p _ => rfl⟩
  | succ i ih =>
    intro dsti srci dst hw hwW hsrci hdsti hsrc hdst
    have hW : 0 < W := lt_of_lt_of_le hw hwW
    have hsrc0 : srci + w ≤ (cells.length : Int) := by
      have h0 := hsrc 0 (Nat.succ_pos i)
      simpa using h0
    have hdst0 : dsti + w ≤ (dst.length : Int) := by
      have h0 := hdst 0 (Nat.succ_pos i)
      simpa using h0
    obtain ⟨row, hrow_eq, hrow_len, hrow_get⟩ :=
      goSlice_eq cells srci w hsrci (le_of_lt hw) hsrc0
    have hcopy := goCopy_eq dst row dsti w hdsti (le_of_lt hw) hdst0 hrow_len
    set dst1 := dst.take dsti.toNat ++ (row ++ dst.drop (dsti.toNat + row.length))
      with hdst1
    have hseg : dsti.toNat + row.length ≤ dst.length := by
      rw [hrow_len]
      omega
    have hlen1 : dst1.length = dst.length := seg_length dst row dsti.toNat hseg
    have hget1 : ∀ p : Nat, dst1[p]? =
        if dsti.toNat ≤ p ∧ p < dsti.toNat + row.length then row[p - dsti.toNat]?
        else dst[p]? := seg_getElem dst row dsti.toNat hseg
    have hsrc' : ∀ r : Nat, r < i → (srci + w) + r * w + w ≤ (cells.length : Int) := by
      intro r hr
      have h1 := hsrc (r + 1) (by omega)
      have e : ((r : Int) + 1) * w = (r : Int) * w + w := by ring
      push_cast at h1
      rw [e] at h1
      linarith
    have hdst' : ∀ r : Nat, r < i → (dsti + W) + r * W + w ≤ (dst1.length : Int) := by
      intro r hr
      have h1 := hdst (r + 1) (by omega)
      have e : ((r : Int) + 1) * W = (r : Int) * W + W := by ring
      push_cast at h1
      rw [e] at h1
      rw [hlen1]
      linarith
    obtain ⟨dst', hloop, hlen', hwrit', huntou'⟩ :=
      ih (dsti + W) (srci + w) dst1 hw hwW (by linarith) (by linarith) hsrc' hdst'
    have hstep : blit_loop W w cells (i + 1) dsti srci dst =
        blit_loop W w cells i (dsti + W) (srci + w) dst1 := by
      show (match goSlice cells srci (srci + w) with
        | none => none
        | some row =>
          match goCopy dst dsti (dsti + w) row with
          | none => none
          | some dst1 => blit_loop W w cells i (dsti + W) (srci + w) dst1) =
          blit_loop W w cells i (dsti + W) (srci + w) dst1
      rw [hrow_eq]
      show (match goCopy dst dsti (dsti + w) row with
        | none => none
        | some dst1 => blit_loop W w cells i (dsti + W) (srci + w) dst1) =
          blit_loop W w cells i (dsti + W) (srci + w) dst1
      rw [hcopy]
    refine ⟨dst', by rw [hstep]; exact hloop, by rw [hlen', hlen1], ?_, ?_⟩
    · intro r hr j hj0 hjw
      match r with
      | 0 =>
        simp only [Nat.cast_zero, zero_mul, add_zero]
        have hq : (0 : Int) ≤ dsti + j := by linarith
        have hp1 : dst'[(dsti + j).toNat]? = dst1[(dsti + j).toNat]? := by
          apply huntou'
          intro r' hr'
          rintro ⟨hle, -⟩
          have hrW : (0 : Int) ≤ (r' : Int) * W :=
            mul_nonneg (Nat.cast_nonneg r') (le_of_lt hW)
          have hcast : ((dsti + j).toNat : Int) = dsti + j := Int.toNat_of_nonneg hq
          rw [hcast] at hle
          linarith
        rw [hp1, hget1]
        rw [if_pos (by rw [hrow_len]; omega)]
        have hsub : (dsti + j).toNat - dsti.toNat = j.toNat := by omega
        rw [hsub, hrow_get j.toNat (by omega)]
        congr 1
        omega
      | Nat.succ r =>
        have hr' : r < i := by omega
        have hx := hwrit' r hr' j hj0 hjw
        push_cast
        have e1 : dsti + ((r : Int) + 1) * W + j = dsti + W + (r : Int) * W + j := by
          ring
        have e2 : srci + ((r : Int) + 1) * w + j = srci + w + (r : Int) * w + j := by
          ring
        rw [e1, e2]
        exact hx
    · intro p hp
      have hp1 : dst'[p]? = dst1[p]? := by
        apply huntou'
        intro r hr
        have h0 := hp (r + 1) (by omega)
        push_cast at h0
        have e : dsti + ((r : Int) + 1) * W = dsti + W + (r : Int) * W := by ring
        rw [e] at h0
        exact h0
      rw [hp1, hget1, if_neg]
      have h0 := hp 0 (Nat.succ_pos i)
      simp only [Nat.cast_zero, zero_mul, add_zero] at h0
      rw [hrow_len]
      omega

/-- Shared lemma: an out-of-bounds `Blit` with nonzero width is discarded
by one of the two early returns. -/
theorem blit_discard_of_oob (b : cellbuffer) (x y w : Int) (cells : List Cell)
    (hw : w ≠ 0)
    (hoob : x < 0 ∨ y < 0 ∨ x + w > b.width ∨
      y + Int.tdiv (cells.length : Int) w > b.height) :
    Blit b x y w cells = some b := by
  unfold Blit
  rw [if_neg hw]
  by_cases h1 : x + w > b.width || x < 0
  · rw [if_pos h1]
  · rw [if_neg h1, if_pos]
    simp only [Bool.or_eq_true, decide_eq_true_eq, not_or] at h1 ⊢
    omega

/-- Claim C1: a positive-width `Blit` whose implied rectangle does not fit
inside the grid (negative origin or an edge crossing the width/height) is
discarded whole: the back grid is returned unchanged, with no partial or
clipped copy. -/
theorem blit_out_of_bounds (b : cellbuffer) (x y w : Int) (cells : List Cell)
    (hw : 0 < w)
    (hoob : x < 0 ∨ y < 0 ∨ x + w > b.width ∨
      y + Int.tdiv (cells.length : Int) w > b.height) :
    Blit b x y w cells = some b :=
  blit_discard_of_oob b x y w cells (by omega) hoob

/-- Witness for claim C1: blitting a 1×2 rectangle at (1,0) into a 2×2 grid
crosses the right edge, and the grid comes back unchanged. -/
theorem blit_out_of_bounds_witness :
    Blit ⟨2, 2, [⟨0,0,0⟩, ⟨0,0,0⟩, ⟨0,0,0⟩, ⟨0,0,0⟩]⟩ 1 0 2 [⟨65,0,0⟩, ⟨66,0,0⟩] =
      some ⟨2, 2, [⟨0,0,0⟩, ⟨0,0,0⟩, ⟨0,0,0⟩, ⟨0,0,0⟩]⟩ :=
  blit_out_of_bounds ⟨2, 2, [⟨0,0,0⟩, ⟨0,0,0⟩, ⟨0,0,0⟩, ⟨0,0,0⟩]⟩ 1 0 2
    [⟨65,0,0⟩, ⟨66,0,0⟩] (by decide) (by right; right; left; decide)

/-- Witness for claim C2 at a concrete 2×2 grid: the in-range write at (1,0),
an out-of-range write at (-1,0), and the `ChangeCell` equation. -/
theorem putCell_changeCell_spec_witness :
    (PutCell ⟨2, 2, [⟨0,0,0⟩, ⟨0,0,0⟩, ⟨0,0,0⟩, ⟨0,0,0⟩]⟩ 1 0 ⟨65, 1, 2⟩).cells[1]? =
      some ⟨65, 1, 2⟩ ∧
    PutCell ⟨2, 2, [⟨0,0,0⟩, ⟨0,0,0⟩, ⟨0,0,0⟩, ⟨0,0,0⟩]⟩ (-1) 0 ⟨65, 1, 2⟩ =
      ⟨2, 2, [⟨0,0,0⟩, ⟨0,0,0⟩, ⟨0,0,0⟩, ⟨0,0,0⟩]⟩ := by
  have h := putCell_changeCell_spec ⟨2, 2, [⟨0,0,0⟩, ⟨0,0,0⟩, ⟨0,0,0⟩, ⟨0,0,0⟩]⟩
      1 0 ⟨65, 1, 2⟩ 65 1 2 (by unfold gridInv; refine ⟨by decide, by decide, by decide⟩)
  have h2 := putCell_changeCell_spec ⟨2, 2, [⟨0,0,0⟩, ⟨0,0,0⟩, ⟨0,0,0⟩, ⟨0,0,0⟩]⟩
      (-1) 0 ⟨65, 1, 2⟩ 65 1 2 (by unfold gridInv; refine ⟨by decide, by decide, by decide⟩)
  refine ⟨?_, ?_⟩
  · have := (h.1 (by refine ⟨by decide, by decide, by decide, by decide⟩)).2.1
    simpa using this
  · exact h2.2.1 (by decide)

/-- Shared lemma: an in-bounds positive-width `Blit` succeeds and its result
grid holds the first `len(cells)/w` rows of the source at the target
rectangle and the original cells everywhere else. -/
theorem blit_in_bounds (b : cellbuffer) (x y w : Int) (cells : List Cell)
    (hinv : gridInv b) (hw : 0 < w) (hx : 0 ≤ x) (hy : 0 ≤ y)
    (hxw : x + w ≤ b.width)
    (hyh : y + Int.tdiv (cells.length : Int) w ≤ b.height) :
    ∃ dst', Blit b x y w cells = some { b with cells := dst' } ∧
      dst'.length = b.cells.length ∧
      (∀ r : Nat, r < (Int.tdiv (cells.length : Int) w).toNat →
        ∀ j : Int, 0 ≤ j → j < w →
        dst'[(y * b.width + x + r * b.width + j).toNat]? =
          cells[((r : Int) * w + j).toNat]?) ∧
      (∀ p : Nat, (∀ r : Nat, r < (Int.tdiv (cells.length : Int) w).toNat →
          ¬(y * b.width + x + r * b.width ≤ (p : Int) ∧
            (p : Int) < y * b.width + x + r * b.width + w)) →
        dst'[p]? = b.cells[p]?) := by
  obtain ⟨hW, hH, hlen⟩ := hinv
  have hL : (0 : Int) ≤ (cells.length : Int) := Int.ofNat_nonneg _
  have hEd : Int.tdiv (cells.length : Int) w = (cells.length : Int) / w :=
    Int.tdiv_eq_ediv hL (le_of_lt hw)
  have hh0 : 0 ≤ Int.tdiv (cells.length : Int) w := by
    rw [hEd]
    exact Int.ediv_nonneg hL (le_of_lt hw)
  have hhw : Int.tdiv (cells.length : Int) w * w ≤ (cells.length : Int) := by
    rw [hEd]
    exact Int.ediv_mul_le _ (ne_of_gt hw)
  have hW0 : 0 < b.width := by linarith
  have hwW : w ≤ b.width := by linarith
  have hsrc : ∀ r : Nat, r < (Int.tdiv (cells.length : Int) w).toNat →
      (0 : Int) + r * w + w ≤ (cells.length : Int) := by
    intro r hr
    have hr1 : (r : Int) + 1 ≤ Int.tdiv (cells.length : Int) w := by omega
    have hm := mul_le_mul_of_nonneg_right hr1 (le_of_lt hw)
    have e : ((r : Int) + 1) * w = (r : Int) * w + w := by ring
    rw [e] at hm
    linarith
  have hdst : ∀ r : Nat, r < (Int.tdiv (cells.length : Int) w).toNat →
      (y * b.width + x) + r * b.width + w ≤ (b.cells.length : Int) := by
    intro r hr
    have hr1 : (r : Int) + 1 ≤ Int.tdiv (cells.length : Int) w := by omega
    have hy1 : y + (r : Int) + 1 ≤ b.height := by linarith
    have hm := mul_le_mul_of_nonneg_right hy1 (le_of_lt hW0)
    have e : (y + (r : Int) + 1) * b.width =
        y * b.width + (r : Int) * b.width + b.width := by ring
    rw [e] at hm
    rw [hlen, mul_comm b.width b.height]
    linarith
  have hd0 : (0 : Int) ≤ y * b.width + x := by
    have := mul_nonneg hy (le_of_lt hW0)
    linarith
  obtain ⟨dst', hloop, hlen', hwrit, huntou⟩ :=
    blit_loop_spec b.width w cells (Int.tdiv (cells.length : Int) w).toNat
      (y * b.width + x) 0 b.cells hw hwW le_rfl hd0 hsrc hdst
  have hBlit : Blit b x y w cells = some { b with cells := dst' } := by
    unfold Blit
    rw [if_neg (by omega : ¬ w = 0)]
    rw [if_neg (show ¬ ((x + w > b.width || x < 0) = true) by
      simp only [Bool.or_eq_true, decide_eq_true_eq, not_or]
      omega)]
    rw [if_neg (show ¬ ((y + Int.tdiv (cells.length : Int) w > b.height || y < 0) = true) by
      simp only [Bool.or_eq_true, decide_eq_true_eq, not_or]
      omega)]
    rw [hloop]
  refine ⟨dst', hBlit, hlen', ?_, ?_⟩
  · intro r hr j hj0 hjw
    have := hwrit r hr j hj0 hjw
    simpa using this
  · exact huntou

/-- Claim C9: `w > 0` is an unvalidated contract precondition of `Blit`:
under it the height derivation `len(cells)/w` cannot divide by zero and
`Blit` never panics (always yields a result), while `w = 0` makes the
division panic instead of being absorbed as a no-op. -/
theorem blit_width_precondition (b : cellbuffer) (x y w : Int) (cells : List Cell)
    (hinv : gridInv b) :
    (0 < w → (Blit b x y w cells).isSome = true) ∧ Blit b x y 0 cells = none := by
  constructor
  · intro hw
    by_cases hoob : x < 0 ∨ y < 0 ∨ x + w > b.width ∨
        y + Int.tdiv (cells.length : Int) w > b.height
    · rw [blit_discard_of_oob b x y w cells (by omega) hoob]
      rfl
    · push_neg at hoob
      obtain ⟨hx, hy, hxw, hyh⟩ := hoob
      obtain ⟨dst', hBlit, -, -, -⟩ := blit_in_bounds b x y w cells hinv hw hx hy hxw hyh
      rw [hBlit]
      rfl
  · unfold Blit
    rw [if_pos rfl]

/-- Witness for claim C9 on a concrete 2×2 grid: a width-2 blit succeeds and
a width-0 blit is the division-by-zero panic. -/
theorem blit_width_precondition_witness :
    (Blit ⟨2, 2, [⟨0,0,0⟩, ⟨0,0,0⟩, ⟨0,0,0⟩, ⟨0,0,0⟩]⟩ 0 0 2
      [⟨65,0,0⟩, ⟨66,0,0⟩]).isSome = true ∧
    Blit ⟨2, 2, [⟨0,0,0⟩, ⟨0,0,0⟩, ⟨0,0,0⟩, ⟨0,0,0⟩]⟩ 0 0 0
      [⟨65,0,0⟩, ⟨66,0,0⟩] = none :=
  ⟨(blit_width_precondition ⟨2, 2, [⟨0,0,0⟩, ⟨0,0,0⟩, ⟨0,0,0⟩, ⟨0,0,0⟩]⟩ 0 0 2
      [⟨65,0,0⟩, ⟨66,0,0⟩]
      (by unfold gridInv; exact ⟨by decide, by decide, by decide⟩)).1 (by decide),
   (blit_width_precondition ⟨2, 2, [⟨0,0,0⟩, ⟨0,0,0⟩, ⟨0,0,0⟩, ⟨0,0,0⟩]⟩ 0 0 0
      [⟨65,0,0⟩, ⟨66,0,0⟩]
      (by unfold gridInv; exact ⟨by decide, by decide, by decide⟩)).2⟩

/-- Claim C10: an in-bounds positive-width `Blit` whose cell count is not a
multiple of `w` copies exactly the `len(cells)/w` (floor) complete rows into
the target rectangle, leaves everything else unchanged, and never reads the
trailing `len(cells) mod w` cells: every source index read is below
`(len(cells)/w) * w = len(cells) - len(cells) % w`. -/
theorem blit_partial_last_row (b : cellbuffer) (x y w : Int) (cells : List Cell)
    (hinv : gridInv b) (hw : 0 < w) (hx : 0 ≤ x) (hy : 0 ≤ y)
    (hxw : x + w ≤ b.width)
    (hyh : y + Int.tdiv (cells.length : Int) w ≤ b.height) :
    ∃ dst', Blit b x y w cells = some { b with cells := dst' } ∧
      dst'.length = b.cells.length ∧
      (∀ i j : Int, 0 ≤ i → i < Int.tdiv (cells.length : Int) w →
        0 ≤ j → j < w →
        dst'[((y + i) * b.width + (x + j)).toNat]? = cells[(i * w + j).toNat]?) ∧
      (∀ p : Nat, (∀ i : Int, 0 ≤ i → i < Int.tdiv (cells.length : Int) w →
          ¬((y + i) * b.width + x ≤ (p : Int) ∧
            (p : Int) < (y + i) * b.width + x + w)) →
        dst'[p]? = b.cells[p]?) ∧
      (∀ i j : Int, 0 ≤ i → i < Int.tdiv (cells.length : Int) w →
        0 ≤ j → j < w →
        i * w + j < Int.tdiv (cells.length : Int) w * w) ∧
      Int.tdiv (cells.length : Int) w * w =
        (cells.length : Int) - (cells.length : Int) % w := by
  obtain ⟨dst', hBlit, hlen', hwrit, huntou⟩ :=
    blit_in_bounds b x y w cells hinv hw hx hy hxw hyh
  have hL : (0 : Int) ≤ (cells.length : Int) := Int.ofNat_nonneg _
  have hEd : Int.tdiv (cells.length : Int) w = (cells.length : Int) / w :=
    Int.tdiv_eq_ediv hL (le_of_lt hw)
  refine ⟨dst', hBlit, hlen', ?_, ?_, ?_, ?_⟩
  · intro i j hi0 hih hj0 hjw
    have hcast : ((i.toNat : Int)) = i := Int.toNat_of_nonneg hi0
    have := hwrit i.toNat (by omega) j hj0 hjw
    rw [hcast] at this
    have e1 : y * b.width + x + i * b.width + j = (y + i) * b.width + (x + j) := by
      ring
    rw [e1] at this
    exact this
  · intro p hp
    apply huntou
    intro r hr
    have h0 := hp (r : Int) (Nat.cast_nonneg r) (by omega)
    have e : (y + (r : Int)) * b.width + x = y * b.width + x + (r : Int) * b.width := by
      ring
    rw [e] at h0
    exact h0
  · intro i j hi0 hih hj0 hjw
    have hm := mul_le_mul_of_nonneg_right (show i + 1 ≤ Int.tdiv (cells.length : Int) w by
      omega) (le_of_lt hw)
    have e : (i + 1) * w = i * w + w := by ring
    rw [e] at hm
    linarith
  · rw [hEd]
    have := Int.emod_def (cells.length : Int) w
    linarith [Int.emod_def (cells.length : Int) w, mul_comm w ((cells.length : Int) / w)]

/-- Witness for claim C10: blitting three cells with width 2 into a 2×2 zero
grid copies exactly one complete row and silently drops the trailing third
cell, which appears nowhere in the result. -/
theorem blit_partial_last_row_witness :
    Blit ⟨2, 2, [⟨0,0,0⟩, ⟨0,0,0⟩, ⟨0,0,0⟩, ⟨0,0,0⟩]⟩ 0 0 2
      [⟨65,0,0⟩, ⟨66,0,0⟩, ⟨67,0,0⟩] =
    some ⟨2, 2, [⟨65,0,0⟩, ⟨66,0,0⟩, ⟨0,0,0⟩, ⟨0,0,0⟩]⟩ := by
  obtain ⟨dst', hB, hlen, hwrit, huntou, -, -⟩ :=
    blit_partial_last_row ⟨2, 2, [⟨0,0,0⟩, ⟨0,0,0⟩, ⟨0,0,0⟩, ⟨0,0,0⟩]⟩ 0 0 2
      [⟨65,0,0⟩, ⟨66,0,0⟩, ⟨67,0,0⟩]
      (by unfold gridInv; exact ⟨by decide, by decide, by decide⟩)
      (by decide) (by decide) (by decide) (by decide) (by decide)
  norm_num at hwrit huntou hlen
  rw [show Int.tdiv (3 : Int) 2 = 1 from by decide] at hwrit huntou
  have hdd : dst' = [⟨65,0,0⟩, ⟨66,0,0⟩, ⟨0,0,0⟩, ⟨0,0,0⟩] := by
    apply List.ext_getElem?
    intro n
    match n with
    | 0 =>
      have h0 := hwrit 0 0 (by norm_num) (by norm_num) (by norm_num) (by norm_num)
      norm_num at h0
      rw [h0]
      rfl
    | 1 =>
      have h1 := hwrit 0 1 (by norm_num) (by norm_num) (by norm_num) (by norm_num)
      norm_num at h1
      rw [h1]
      rfl
    | 2 =>
      have h2 := huntou 2 (by intro i hi0 hi1; omega)
      norm_num at h2
      rw [h2]
      rfl
    | 3 =>
      have h3 := huntou 3 (by intro i hi0 hi1; omega)
      norm_num at h3
      rw [h3]
      rfl
    | (n + 4) =>
      rw [List.getElem?_eq_none (show dst'.length ≤ n + 4 by omega),
        List.getElem?_eq_none
          (show ([⟨65,0,0⟩, ⟨66,0,0⟩, ⟨0,0,0⟩, ⟨0,0,0⟩] : List Cell).length ≤ n + 4 by
            simp)]
  rw [hB, hdd]

/-- Claim C5: `SetCursor` appends a show-cursor item exactly on a
hidden-to-visible transition and a hide-cursor item exactly on a
visible-to-hidden transition (same-state transitions append neither, only
the move for a visible target), stores the new position, and `HideCursor`
is exactly `SetCursor(hidden, hidden)`. -/
theorem setCursor_edge_emissions (s : TB) (x y : Int) :
    (SetCursor s x y).outbuf = s.outbuf ++
      ((if is_cursor_hidden s.cursor_x s.cursor_y && !(is_cursor_hidden x y) then
          [EmitItem.show_cursor] else []) ++
       (if !(is_cursor_hidden s.cursor_x s.cursor_y) && is_cursor_hidden x y then
          [EmitItem.hide_cursor] else []) ++
       (if !(is_cursor_hidden x y) then
          [EmitItem.move_cursor (y + 1) (y + 1)] else [])) ∧
    (SetCursor s x y).cursor_x = x ∧ (SetCursor s x y).cursor_y = y ∧
    HideCursor s = SetCursor s cursor_hidden cursor_hidden := by
  refine ⟨?_, ?_, ?_, rfl⟩ <;>
  · unfold SetCursor
    cases h1 : is_cursor_hidden s.cursor_x s.cursor_y <;>
      cases h2 : is_cursor_hidden x y <;>
        simp [h1, h2]

/-- Claim C8: `SetInputMode(InputCurrent)` is a pure query returning the
stored mode with the whole session state unchanged, while
`SetInputMode(InputEsc)`/`SetInputMode(InputAlt)` store the mode, change
nothing else, and return it. -/
theorem setInputMode_query_or_set (s : TB) (m : InputMode) :
    SetInputMode s InputCurrent = (s, s.input_mode) ∧
    ((m = InputEsc ∨ m = InputAlt) →
      SetInputMode s m = ({ s with input_mode := m }, m)) := by
  constructor
  · unfold SetInputMode
    simp
  · rintro (rfl | rfl) <;>
    · unfold SetInputMode
      rw [if_pos (by decide)]

/-- Witness for claim C8 on the concrete state `tb1`: a pure query with
`InputCurrent` and a real store with `InputAlt`. -/
theorem setInputMode_query_or_set_witness :
    SetInputMode tb1 InputCurrent = (tb1, tb1.input_mode) ∧
    SetInputMode tb1 InputAlt = ({ tb1 with input_mode := InputAlt }, InputAlt) :=
  ⟨(setInputMode_query_or_set tb1 InputAlt).1,
   (setInputMode_query_or_set tb1 InputAlt).2 (Or.inr rfl)⟩

/-- `framePreserved` is reflexive. -/
theorem framePreserved_refl (s : TB) : framePreserved s s :=
  ⟨rfl, rfl, rfl, rfl, rfl, rfl, rfl, rfl, rfl, rfl, rfl⟩

/-- `framePreserved` is transitive. -/
theorem framePreserved_trans {a b c : TB}
    (h1 : framePreserved a b) (h2 : framePreserved b c) : framePreserved a c := by
  obtain ⟨u1, u2, u3, u4, u5, u6, u7, u8, u9, u10, u11⟩ := h1
  obtain ⟨v1, v2, v3, v4, v5, v6, v7, v8, v9, v10, v11⟩ := h2
  exact ⟨v1.trans u1, v2.trans u2, v3.trans u3, v4.trans u4, v5.trans u5,
    v6.trans u6, v7.trans u7, v8.trans u8, v9.trans u9, v10.trans u10,
    v11.trans u11⟩

/-- One diff-loop iteration only touches the output buffer, the emission
caches, and the front-grid cell contents. -/
theorem presentCell_frame (W : Nat) (s : TB) (x y : Nat) :
    framePreserved s (presentCell W s x y) := by
  unfold presentCell send_attr send_char framePreserved
  by_cases h : s.back_buffer.cells.getD (y * W + x) default =
      s.front_buffer.cells.getD (y * W + x) default
  · rw [if_pos h]
    exact framePreserved_refl s
  · rw [if_neg h]
    by_cases h2 : s.lastattr =
        some ((s.back_buffer.cells.getD (y * W + x) default).Fg,
          (s.back_buffer.cells.getD (y * W + x) default).Bg)
    · rw [if_pos h2]
      simp
    · rw [if_neg h2]
      simp

/-- After one diff-loop iteration, the front cell at the visited offset
holds the back cell. -/
theorem presentCell_get_eq (W : Nat) (s : TB) (x y : Nat)
    (hfront : y * W + x < s.front_buffer.cells.length)
    (hback : y * W + x < s.back_buffer.cells.length) :
    (presentCell W s x y).front_buffer.cells[y * W + x]? =
      s.back_buffer.cells[y * W + x]? := by
  have hgb : s.back_buffer.cells.getD (y * W + x) default =
      s.back_buffer.cells[y * W + x] := by
    rw [List.getD_eq_getElem?_getD, List.getElem?_eq_getElem hback]
    rfl
  have hgf : s.front_buffer.cells.getD (y * W + x) default =
      s.front_buffer.cells[y * W + x] := by
    rw [List.getD_eq_getElem?_getD, List.getElem?_eq_getElem hfront]
    rfl
  unfold presentCell
  by_cases h : s.back_buffer.cells.getD (y * W + x) default =
      s.front_buffer.cells.getD (y * W + x) default
  · rw [if_pos h]
    rw [List.getElem?_eq_getElem hfront, List.getElem?_eq_getElem hback]
    rw [← hgf, ← hgb, h]
  · rw [if_neg h]
    have hfc : (send_char (send_attr s
        (s.back_buffer.cells.getD (y * W + x) default).Fg
        (s.back_buffer.cells.getD (y * W + x) default).Bg)
        (x : Int) (y : Int)
        (s.back_buffer.cells.getD (y * W + x) default).Ch).front_buffer =
        s.front_buffer := by
      unfold send_attr send_char
      by_cases h2 : s.lastattr =
          some ((s.back_buffer.cells.getD (y * W + x) default).Fg,
            (s.back_buffer.cells.getD (y * W + x) default).Bg)
      · rw [if_pos h2]
      · rw [if_neg h2]
    show ((send_char (send_attr s _ _) _ _ _).front_buffer.cells.set
        (y * W + x) _)[y * W + x]? = _
    rw [hfc]
    rw [List.getElem?_set_self hfront]
    rw [hgb, List.getElem?_eq_getElem hback]

/-- One diff-loop iteration leaves every other front-grid position alone. -/
theorem presentCell_get_ne (W : Nat) (s : TB) (x y : Nat) (p : Nat)
    (hp : p ≠ y * W + x) :
    (presentCell W s x y).front_buffer.cells[p]? =
      s.front_buffer.cells[p]? := by
  unfold presentCell
  by_cases h : s.back_buffer.cells.getD (y * W + x) default =
      s.front_buffer.cells.getD (y * W + x) default
  · rw [if_pos h]
  · rw [if_neg h]
    have hfc : (send_char (send_attr s
        (s.back_buffer.cells.getD (y * W + x) default).Fg
        (s.back_buffer.cells.getD (y * W + x) default).Bg)
        (x : Int) (y : Int)
        (s.back_buffer.cells.getD (y * W + x) default).Ch).front_buffer =
        s.front_buffer := by
      unfold send_attr send_char
      by_cases h2 : s.lastattr =
          some ((s.back_buffer.cells.getD (y * W + x) default).Fg,
            (s.back_buffer.cells.getD (y * W + x) default).Bg)
      · rw [if_pos h2]
      · rw [if_neg h2]
    show ((send_char (send_attr s _ _) _ _ _).front_buffer.cells.set
        (y * W + x) _)[p]? = _
    rw [hfc]
    exact List.getElem?_set_ne (fun he => hp he.symm)

/-- When the grids agree at the visited offset, one diff-loop iteration is
the identity. -/
theorem presentCell_id (W : Nat) (s : TB) (x y : Nat)
    (h : s.front_buffer.cells = s.back_buffer.cells) :
    presentCell W s x y = s := by
  unfold presentCell
  rw [if_pos (by rw [h])]

/-- The inner x-loop preserves the frame. -/
theorem presentCells_frame (W y : Nat) (xs : List Nat) (s : TB) :
    framePreserved s (presentCells W y xs s) := by
  induction xs generalizing s with
  | nil => exact framePreserved_refl s
  | cons x0 rest ih =>
    exact framePreserved_trans (presentCell_frame W s x0 y)
      (ih (presentCell W s x0 y))

/-- The inner x-loop leaves front positions outside its visited offsets
alone. -/
theorem presentCells_get_ne (W y : Nat) (xs : List Nat) (s : TB) (p : Nat)
    (hp : ∀ x ∈ xs, p ≠ y * W + x) :
    (presentCells W y xs s).front_buffer.cells[p]? =
      s.front_buffer.cells[p]? := by
  induction xs generalizing s with
  | nil => rfl
  | cons x0 rest ih =>
    show (presentCells W y rest (presentCell W s x0 y)).front_buffer.cells[p]? = _
    rw [ih (presentCell W s x0 y) (fun x hx => hp x (List.mem_cons_of_mem _ hx))]
    exact presentCell_get_ne W s x0 y p (hp x0 (List.mem_cons_self x0 rest))

/-- After the inner x-loop over distinct columns, each visited front cell
holds the corresponding back cell. -/
theorem presentCells_get_mem (W y : Nat) (xs : List Nat) (s : TB) (x : Nat)
    (hnd : xs.Nodup) (hx : x ∈ xs)
    (hfront : y * W + x < s.front_buffer.cells.length)
    (hback : y * W + x < s.back_buffer.cells.length) :
    (presentCells W y xs s).front_buffer.cells[y * W + x]? =
      s.back_buffer.cells[y * W + x]? := by
  induction xs generalizing s with
  | nil => simp at hx
  | cons x0 rest ih =>
    obtain ⟨hx0nin, hndr⟩ := List.nodup_cons.mp hnd
    show (presentCells W y rest (presentCell W s x0 y)).front_buffer.cells[y * W + x]? = _
    rcases List.mem_cons.mp hx with rfl | hmem
    · rw [presentCells_get_ne W y rest (presentCell W s x y) (y * W + x)
        (fun x' hx' he => hx0nin (by
          have : x = x' := by omega
          rwa [this]))]
      exact presentCell_get_eq W s x y hfront hback
    · obtain ⟨hb, -, -, hl, -⟩ := presentCell_frame W s x0 y
      rw [ih (presentCell W s x0 y) hndr hmem (by rw [hl]; exact hfront)
        (by rw [hb]; exact hback)]
      rw [hb]

/-- Distinct rows index disjoint offset ranges. -/
theorem row_index_ne (W y y' x x' : Nat) (hx : x < W) (hx' : x' < W)
    (hyy : y ≠ y') : y * W + x ≠ y' * W + x' := by
  intro h
  rcases Nat.lt_or_ge y y' with hlt | hge
  · have h1 : (y + 1) * W ≤ y' * W := Nat.mul_le_mul_right W hlt
    have h2 : (y + 1) * W = y * W + W := by ring
    omega
  · have hlt' : y' < y := lt_of_le_of_ne hge (Ne.symm hyy)
    have h1 : (y' + 1) * W ≤ y * W := Nat.mul_le_mul_right W hlt'
    have h2 : (y' + 1) * W = y' * W + W := by ring
    omega

/-- The outer y-loop preserves the frame. -/
theorem presentRows_frame (W : Nat) (ys : List Nat) (s : TB) :
    framePreserved s (presentRows W ys s) := by
  induction ys generalizing s with
  | nil => exact framePreserved_refl s
  | cons y0 rest ih =>
    exact framePreserved_trans (presentCells_frame W y0 (List.range W) s)
      (ih (presentCells W y0 (List.range W) s))

/-- The outer y-loop leaves front positions outside its visited rows
alone. -/
theorem presentRows_get_ne (W : Nat) (ys : List Nat) (s : TB) (p : Nat)
    (hp : ∀ y ∈ ys, ∀ x ∈ List.range W, p ≠ y * W + x) :
    (presentRows W ys s).front_buffer.cells[p]? =
      s.front_buffer.cells[p]? := by
  induction ys generalizing s with
  | nil => rfl
  | cons y0 rest ih =>
    show (presentRows W rest (presentCells W y0 (List.range W) s)).front_buffer.cells[p]? = _
    rw [ih (presentCells W y0 (List.range W) s)
      (fun y hy => hp y (List.mem_cons_of_mem _ hy))]
    exact presentCells_get_ne W y0 (List.range W) s p
      (hp y0 (List.mem_cons_self y0 rest))

/-- After the outer y-loop over distinct rows, each visited front cell
holds the corresponding back cell. -/
theorem presentRows_get_mem (W : Nat) (ys : List Nat) (s : TB) (y x : Nat)
    (hnd : ys.Nodup) (hy : y ∈ ys) (hxW : x < W)
    (hfront : y * W + x < s.front_buffer.cells.length)
    (hback : y * W + x < s.back_buffer.cells.length) :
    (presentRows W ys s).front_buffer.cells[y * W + x]? =
      s.back_buffer.cells[y * W + x]? := by
  induction ys generalizing s with
  | nil => simp at hy
  | cons y0 rest ih =>
    obtain ⟨hy0nin, hndr⟩ := List.nodup_cons.mp hnd
    show (presentRows W rest (presentCells W y0 (List.range W) s)).front_buffer.cells[y * W + x]? = _
    rcases List.mem_cons.mp hy with rfl | hmem
    · rw [presentRows_get_ne W rest (presentCells W y (List.range W) s) (y * W + x)
        (fun y' hy' x' hx' =>
          row_index_ne W y y' x x' hxW (List.mem_range.mp hx')
            (fun he => hy0nin (he ▸ hy')))]
      obtain ⟨hb, -, -, -, -⟩ := presentCells_frame W y (List.range W) s
      exact presentCells_get_mem W y (List.range W) s x (List.nodup_range W)
        (List.mem_range.mpr hxW) hfront hback
    · obtain ⟨hb, -, -, hl, -⟩ := presentCells_frame W y0 (List.range W) s
      rw [ih (presentCells W y0 (List.range W) s) hndr hmem
        (by rw [hl]; exact hfront) (by rw [hb]; exact hback)]
      rw [hb]

/-- After the full diff scan, the front grid mirrors the back grid and the
frame is preserved. -/
theorem presentLoop_spec (s : TB) (hinv : TBinv s) :
    (presentLoop s).front_buffer.cells = (presentLoop s).back_buffer.cells ∧
    framePreserved s (presentLoop s) := by
  obtain ⟨hw0, hh0, hwe, hhe, hbl, hfl, -, -⟩ := hinv
  have hframe : framePreserved s (presentLoop s) :=
    presentRows_frame _ _ s
  refine ⟨?_, hframe⟩
  obtain ⟨hb, -, -, hl, -⟩ := hframe
  have hWc : ((s.front_buffer.width.toNat : Int)) = s.front_buffer.width := by
    rw [hwe]
    exact Int.toNat_of_nonneg hw0
  have hHc : ((s.front_buffer.height.toNat : Int)) = s.front_buffer.height := by
    rw [hhe]
    exact Int.toNat_of_nonneg hh0
  have hflN : s.front_buffer.cells.length =
      s.front_buffer.width.toNat * s.front_buffer.height.toNat := by
    have : (s.front_buffer.cells.length : Int) =
        ((s.front_buffer.width.toNat * s.front_buffer.height.toNat : Nat) : Int) := by
      push_cast
      rw [hWc, hHc]
      exact hfl
    exact_mod_cast this
  have hblN : s.back_buffer.cells.length =
      s.front_buffer.width.toNat * s.front_buffer.height.toNat := by
    have : (s.back_buffer.cells.length : Int) =
        ((s.front_buffer.width.toNat * s.front_buffer.height.toNat : Nat) : Int) := by
      push_cast
      rw [hWc, hHc, hwe, hhe]
      exact hbl
    exact_mod_cast this
  apply List.ext_getElem?
  intro p
  rw [hb]
  by_cases hp : p < s.front_buffer.width.toNat * s.front_buffer.height.toNat
  · have hW0 : 0 < s.front_buffer.width.toNat := by
      rcases Nat.eq_zero_or_pos s.front_buffer.width.toNat with h0 | h0
      · rw [h0] at hp
        omega
      · exact h0
    have hx : p % s.front_buffer.width.toNat < s.front_buffer.width.toNat :=
      Nat.mod_lt p hW0
    have hy : p / s.front_buffer.width.toNat < s.front_buffer.height.toNat := by
      rw [Nat.div_lt_iff_lt_mul hW0]
      rw [mul_comm] at hp
      exact hp
    have hdecomp : p = (p / s.front_buffer.width.toNat) * s.front_buffer.width.toNat +
        p % s.front_buffer.width.toNat := by
      rw [mul_comm]
      exact (Nat.div_add_mod p s.front_buffer.width.toNat).symm
    rw [hdecomp]
    exact presentRows_get_mem s.front_buffer.width.toNat
      (List.range s.front_buffer.height.toNat) s
      (p / s.front_buffer.width.toNat) (p % s.front_buffer.width.toNat)
      (List.nodup_range _) (List.mem_range.mpr hy) hx
      (by rw [hflN]; omega) (by rw [hblN]; omega)
  · rw [List.getElem?_eq_none (by rw [hl, hflN]; omega),
      List.getElem?_eq_none (by rw [hblN]; omega)]

/-- A diff scan over already-synchronized grids is the identity. -/
theorem presentLoop_id (s : TB)
    (h : s.front_buffer.cells = s.back_buffer.cells) :
    presentLoop s = s := by
  have hcells : ∀ (W y : Nat) (xs : List Nat), presentCells W y xs s = s := by
    intro W y xs
    induction xs with
    | nil => rfl
    | cons x0 rest ih =>
      show presentCells W y rest (presentCell W s x0 y) = s
      rw [presentCell_id W s x0 y h]
      exact ih
  have hrows : ∀ (W : Nat) (ys : List Nat), presentRows W ys s = s := by
    intro W ys
    induction ys with
    | nil => rfl
    | cons y0 rest ih =>
      show presentRows W rest (presentCells W y0 (List.range W) s) = s
      rw [hcells W y0 (List.range W)]
      exact ih
  exact hrows _ _

/-- The `Present` prelude consumes the draw-side resize slot, leaves the
cursor, device geometry and output buffer alone, and preserves the state
invariant. -/
theorem present_prelude_spec (s : TB) (hinv : TBinv s) :
    TBinv (present_prelude s) ∧
    (present_prelude s).sigwinch_draw = false ∧
    (present_prelude s).cursor_x = s.cursor_x ∧
    (present_prelude s).cursor_y = s.cursor_y ∧
    (present_prelude s).outbuf = s.outbuf ∧
    (present_prelude s).dev_w = s.dev_w ∧
    (present_prelude s).dev_h = s.dev_h := by
  obtain ⟨hw0, hh0, hwe, hhe, hbl, hfl, hdw, hdh⟩ := hinv
  unfold present_prelude
  by_cases hs : s.sigwinch_draw
  · rw [if_pos (by simpa using hs)]
    unfold update_size cellbuffer.resize TBinv
    refine ⟨⟨by simpa using hdw, by simpa using hdh, rfl, rfl, ?_, ?_, by simpa using hdw,
      by simpa using hdh⟩, rfl, rfl, rfl, rfl, rfl, rfl⟩ <;>
    · show ((List.replicate (s.dev_w * s.dev_h).toNat
        (⟨32, s.foreground, s.background⟩ : Cell)).length : Int) = s.dev_w * s.dev_h
      rw [List.length_replicate]
      exact Int.toNat_of_nonneg (mul_nonneg hdw hdh)
  · rw [if_neg (by simpa using hs)]
    refine ⟨⟨hw0, hh0, hwe, hhe, hbl, hfl, hdw, hdh⟩, by simpa using hs,
      rfl, rfl, rfl, rfl, rfl⟩

/-- After any `Present` call: the front grid mirrors the back grid, the
draw-side resize slot is empty, the output buffer has been flushed, the
cursor is unchanged, and the state invariant holds again. -/
theorem present_finish_fields (u : TB) :
    (present_finish u).1.front_buffer = (presentLoop u).front_buffer ∧
    (present_finish u).1.back_buffer = (presentLoop u).back_buffer ∧
    (present_finish u).1.sigwinch_draw = (presentLoop u).sigwinch_draw ∧
    (present_finish u).1.outbuf = [] ∧
    (present_finish u).1.cursor_x = (presentLoop u).cursor_x ∧
    (present_finish u).1.cursor_y = (presentLoop u).cursor_y ∧
    (present_finish u).1.dev_w = (presentLoop u).dev_w ∧
    (present_finish u).1.dev_h = (presentLoop u).dev_h ∧
    (present_finish u).2 = (presentLoop u).outbuf ++
      (if !(is_cursor_hidden (presentLoop u).cursor_x (presentLoop u).cursor_y) then
        [EmitItem.move_cursor ((presentLoop u).cursor_y + 1)
          ((presentLoop u).cursor_x + 1)]
      else []) := by
  unfold present_finish
  dsimp only
  by_cases hc : (!(is_cursor_hidden (presentLoop u).cursor_x
      (presentLoop u).cursor_y)) = true
  · rw [if_pos hc]
    exact ⟨rfl, rfl, rfl, rfl, rfl, rfl, rfl, rfl, by simp [hc]⟩
  · rw [if_neg hc]
    exact ⟨rfl, rfl, rfl, rfl, rfl, rfl, rfl, rfl, by simp [hc]⟩

/-- After any `Present` call: the front grid mirrors the back grid, the
draw-side resize slot is empty, the output buffer has been flushed, the
cursor is unchanged, and the state invariant holds again. -/
theorem present_state (s : TB) (hinv : TBinv s) :
    (Present s).1.front_buffer.cells = (Present s).1.back_buffer.cells ∧
    (Present s).1.sigwinch_draw = false ∧
    (Present s).1.outbuf = [] ∧
    (Present s).1.cursor_x = s.cursor_x ∧
    (Present s).1.cursor_y = s.cursor_y ∧
    TBinv (Present s).1 := by
  obtain ⟨hinvT, hsig, hcx, hcy, houtb, hdw, hdh⟩ := present_prelude_spec s hinv
  obtain ⟨hfb, hframe⟩ := presentLoop_spec (present_prelude s) hinvT
  obtain ⟨hb, hw, hh, hl, hcx2, hcy2, hsig2, hdw2, hdh2, hfg2, hbg2⟩ := hframe
  have hinvU : TBinv (presentLoop (present_prelude s)) := by
    obtain ⟨tw0, th0, twe, the', tbl, tfl, tdw, tdh⟩ := hinvT
    exact ⟨by rw [hb]; exact tw0, by rw [hb]; exact th0,
      by rw [hw, hb]; exact twe, by rw [hh, hb]; exact the',
      by rw [hb]; exact tbl, by rw [hl, hw, hh]; exact tfl,
      by rw [hdw2]; exact tdw, by rw [hdh2]; exact tdh⟩
  obtain ⟨f1, f2, f3, f4, f5, f6, f7, f8, f9⟩ :=
    present_finish_fields (present_prelude s)
  have hPres : Present s = present_finish (present_prelude s) := rfl
  rw [hPres]
  obtain ⟨uw0, uh0, uwe, uhe, ubl, ufl, udw, udh⟩ := hinvU
  refine ⟨by rw [f1, f2]; exact hfb, by rw [f3, hsig2]; exact hsig, f4,
    by rw [f5, hcx2]; exact hcx, by rw [f6, hcy2]; exact hcy,
    ⟨by rw [f2]; exact uw0, by rw [f2]; exact uh0,
     by rw [f1, f2]; exact uwe, by rw [f1, f2]; exact uhe,
     by rw [f2]; exact ubl, by rw [f1]; exact ufl,
     by rw [f7]; exact udw, by rw [f8]; exact udh⟩⟩

/-- Claim C4 (amended): after any `Present` call every front-grid cell
equals the corresponding back-grid cell, so a second consecutive `Present`
with no intervening back-grid mutation, resize signal, or cursor change
finds no differing cells and emits no cell output at all — its entire
flushed output is empty when the logical cursor is hidden and consists of
exactly the final cursor move when it is visible. -/
theorem present_idempotent_cell_output (s : TB) (hinv : TBinv s) :
    (Present s).1.front_buffer.cells = (Present s).1.back_buffer.cells ∧
    (Present (Present s).1).2 =
      (if is_cursor_hidden s.cursor_x s.cursor_y then ([] : List EmitItem)
       else [EmitItem.move_cursor (s.cursor_y + 1) (s.cursor_x + 1)]) := by
  obtain ⟨hfb1, hsig1, hout1, hcx1, hcy1, hinv1⟩ := present_state s hinv
  refine ⟨hfb1, ?_⟩
  have hpre : present_prelude (Present s).1 =
      { (Present s).1 with lastx := coord_invalid, lasty := coord_invalid } := by
    unfold present_prelude
    rw [if_neg (by simpa using hsig1)]
  have hfb2 : (present_prelude (Present s).1).front_buffer.cells =
      (present_prelude (Present s).1).back_buffer.cells := by
    rw [hpre]
    exact hfb1
  have hloop : presentLoop (present_prelude (Present s).1) =
      present_prelude (Present s).1 :=
    presentLoop_id _ hfb2
  obtain ⟨-, -, -, -, -, -, -, -, g9⟩ := present_finish_fields (present_prelude (Present s).1)
  have hPres2 : Present (Present s).1 = present_finish (present_prelude (Present s).1) := rfl
  have hpcx : (present_prelude (Present s).1).cursor_x = s.cursor_x := by
    rw [hpre]
    exact hcx1
  have hpcy : (present_prelude (Present s).1).cursor_y = s.cursor_y := by
    rw [hpre]
    exact hcy1
  have hpout : (present_prelude (Present s).1).outbuf = [] := by
    rw [hpre]
    exact hout1
  rw [hPres2, g9, hloop, hpcx, hpcy, hpout]
  cases hcur : is_cursor_hidden s.cursor_x s.cursor_y <;> simp [hcur]

/-- Counterexample for claim C4 as stated: starting from the 1×1 session
with the cursor placed at (0,0), a first `Present` synchronizes the grids,
yet the second consecutive `Present` (no mutation, no resize signal, no
cursor change in between) still produces non-empty output — the final
cursor move is re-emitted on every call while the cursor is visible. -/
theorem present_second_output_nonempty :
    (Present (Present (SetCursor tb1 0 0)).1).2 ≠ ([] : List EmitItem) := by
  decide

/-- Witness for claim C4 (amended) at the concrete state `tb1`. -/
theorem present_idempotent_cell_output_witness :
    (Present tb1).1.front_buffer.cells = (Present tb1).1.back_buffer.cells ∧
    (Present (Present tb1).1).2 =
      (if is_cursor_hidden tb1.cursor_x tb1.cursor_y then ([] : List EmitItem)
       else [EmitItem.move_cursor (tb1.cursor_y + 1) (tb1.cursor_x + 1)]) :=
  present_idempotent_cell_output tb1 (by
    unfold TBinv
    exact ⟨by decide, by decide, by decide, by decide, by decide, by decide,
      by decide, by decide⟩)

/-- Claim C6: when a draw-side resize notification is pending, `Present`
consumes it and resizes both grids to the queried geometry before the diff
scan runs (`Present` is definitionally the finish applied to the prelude,
the prelude empties the slot and installs the new geometry, and the scan
preserves both), and `Clear` likewise consumes the slot before clearing the
back grid (its cleared back grid carries the new geometry). -/
theorem resize_consumed_before_work (s : TB) (h : s.sigwinch_draw = true) :
    Present s = present_finish (present_prelude s) ∧
    (present_prelude s).sigwinch_draw = false ∧
    (present_prelude s).back_buffer.width = s.dev_w ∧
    (present_prelude s).back_buffer.height = s.dev_h ∧
    (present_prelude s).front_buffer.width = s.dev_w ∧
    (present_prelude s).front_buffer.height = s.dev_h ∧
    (presentLoop (present_prelude s)).sigwinch_draw = false ∧
    (presentLoop (present_prelude s)).front_buffer.width = s.dev_w ∧
    (presentLoop (present_prelude s)).front_buffer.height = s.dev_h ∧
    (Clear s).sigwinch_draw = false ∧
    (Clear s).back_buffer.width = s.dev_w ∧
    (Clear s).back_buffer.height = s.dev_h ∧
    (Clear s).back_buffer.cells =
      List.replicate (s.dev_w * s.dev_h).toNat ⟨32, s.foreground, s.background⟩ := by
  have hpre : present_prelude s =
      update_size
        { s with
          lastx := coord_invalid
          lasty := coord_invalid
          sigwinch_draw := false } := by
    unfold present_prelude
    rw [if_pos (by simpa using h)]
  obtain ⟨-, -, -, -, -, -, hsg, -, -, -, -⟩ :=
    presentRows_frame (present_prelude s).front_buffer.width.toNat
      (List.range (present_prelude s).front_buffer.height.toNat) (present_prelude s)
  obtain ⟨-, hfw, hfh, -, -, -, -, -, -, -, -⟩ :=
    presentRows_frame (present_prelude s).front_buffer.width.toNat
      (List.range (present_prelude s).front_buffer.height.toNat) (present_prelude s)
  have hClear : Clear s =
      { update_size { s with sigwinch_draw := false } with
        back_buffer := (update_size
          { s with sigwinch_draw := false }).back_buffer.clear
            s.foreground s.background } := by
    unfold Clear
    rw [if_pos (by simpa using h)]
    rfl
  refine ⟨rfl, ?_, ?_, ?_, ?_, ?_, ?_, ?_, ?_, ?_, ?_, ?_, ?_⟩
  · rw [hpre]
    rfl
  · rw [hpre]
    rfl
  · rw [hpre]
    rfl
  · rw [hpre]
    rfl
  · rw [hpre]
    rfl
  · show (presentLoop (present_prelude s)).sigwinch_draw = false
    rw [show (presentLoop (present_prelude s)).sigwinch_draw =
      (present_prelude s).sigwinch_draw from hsg, hpre]
    rfl
  · rw [show (presentLoop (present_prelude s)).front_buffer.width =
      (present_prelude s).front_buffer.width from hfw, hpre]
    rfl
  · rw [show (presentLoop (present_prelude s)).front_buffer.height =
      (present_prelude s).front_buffer.height from hfh, hpre]
    rfl
  · rw [hClear]
    rfl
  · rw [hClear]
    rfl
  · rw [hClear]
    rfl
  · rw [hClear]
    rfl

/-- Witness for claim C6 at the concrete state `tb1r`: `tb1` with a pending
resize signal and a device geometry of 2×2. -/
theorem resize_consumed_before_work_witness :
    (present_prelude tb1r).sigwinch_draw = false ∧
    (present_prelude tb1r).back_buffer.width = 2 ∧
    (Clear tb1r).back_buffer.cells = List.replicate 4 ⟨32, 8, 8⟩ := by
  obtain ⟨-, c2, c3, -, -, -, -, -, -, -, c11, -, c13⟩ :=
    resize_consumed_before_work tb1r (by decide)
  exact ⟨c2, c3, by rw [c13]; rfl⟩

/-- Claim C3 evaluated at a failing input: `SetCursor(2, 5)` on the hidden-
cursor session `tb1` emits a move-cursor sequence with BOTH template
arguments equal to `cursor_y + 1 = 6` — the column slot receives the row
value instead of `x + 1 = 3` — whereas `Present` with the cursor stored at
(2, 5) emits the final move with row `6` and column `3` as the claim
describes. `SetCursor` therefore does not apply the same translation as
`Present`: src/api.go line 286 passes `cursor_y+1, cursor_y+1` where line
269 passes `cursor_y+1, cursor_x+1`. -/
theorem setCursor_move_uses_row_for_column :
    (SetCursor tb1 2 5).outbuf =
      [EmitItem.show_cursor, EmitItem.move_cursor 6 6] ∧
    (SetCursor tb1 2 5).outbuf ≠
      [EmitItem.show_cursor, EmitItem.move_cursor 6 3] ∧
    (Present { tb1 with cursor_x := 2, cursor_y := 5 }).2 =
      [EmitItem.move_cursor 6 3] := by
  refine ⟨by decide, by decide, by decide⟩

/-- The protocol invariant holds in every reachable state. -/
theorem PPInv_reachable (s : PPState) (h : PPReachable s) : PPInv s := by
  induction h with
  | refl => exact Or.inl ⟨rfl, rfl, rfl, rfl⟩
  | tail hab hbc ih =>
    cases hbc with
    | read c t =>
      rcases ih with ⟨h1, h2, h3, h4⟩ | ⟨h1, h2, h3, h4⟩ | ⟨h1, h2, h3, h4⟩ |
        ⟨h1, h2, h3, h4⟩
      · have h3' : t.count PPEvent.read = t.count PPEvent.handback := h3
        have h4' : t.count PPEvent.append = t.count PPEvent.handback := h4
        refine Or.inr (Or.inl ⟨rfl, h2, ?_, ?_⟩)
        · show (PPEvent.read :: t).count PPEvent.read =
            (PPEvent.read :: t).count PPEvent.handback + 1
          rw [List.count_cons_self,
            List.count_cons_of_ne (show PPEvent.handback ≠ PPEvent.read by decide) t]
          omega
        · show (PPEvent.read :: t).count PPEvent.append =
            (PPEvent.read :: t).count PPEvent.handback
          rw [List.count_cons_of_ne (show PPEvent.append ≠ PPEvent.read by decide) t,
            List.count_cons_of_ne (show PPEvent.handback ≠ PPEvent.read by decide) t]
          omega
      · exact RdPhase.noConfusion h1
      · exact RdPhase.noConfusion h1
      · exact RdPhase.noConfusion h1
    | handoff t =>
      rcases ih with ⟨h1, h2, h3, h4⟩ | ⟨h1, h2, h3, h4⟩ | ⟨h1, h2, h3, h4⟩ |
        ⟨h1, h2, h3, h4⟩
      · exact RdPhase.noConfusion h1
      · exact Or.inr (Or.inr (Or.inl ⟨rfl, rfl, h3, h4⟩))
      · exact RdPhase.noConfusion h1
      · exact RdPhase.noConfusion h1
    | append r t =>
      rcases ih with ⟨h1, h2, h3, h4⟩ | ⟨h1, h2, h3, h4⟩ | ⟨h1, h2, h3, h4⟩ |
        ⟨h1, h2, h3, h4⟩
      · exact CoPhase.noConfusion h2
      · exact CoPhase.noConfusion h2
      · have h3' : t.count PPEvent.read = t.count PPEvent.handback + 1 := h3
        have h4' : t.count PPEvent.append = t.count PPEvent.handback := h4
        refine Or.inr (Or.inr (Or.inr ⟨h1, rfl, ?_, ?_⟩))
        · show (PPEvent.append :: t).count PPEvent.read =
            (PPEvent.append :: t).count PPEvent.handback + 1
          rw [List.count_cons_of_ne (show PPEvent.read ≠ PPEvent.append by decide) t,
            List.count_cons_of_ne (show PPEvent.handback ≠ PPEvent.append by decide) t]
          omega
        · show (PPEvent.append :: t).count PPEvent.append =
            (PPEvent.append :: t).count PPEvent.handback + 1
          rw [List.count_cons_self,
            List.count_cons_of_ne (show PPEvent.handback ≠ PPEvent.append by decide) t]
          omega
      · exact CoPhase.noConfusion h2
    | handback t =>
      rcases ih with ⟨h1, h2, h3, h4⟩ | ⟨h1, h2, h3, h4⟩ | ⟨h1, h2, h3, h4⟩ |
        ⟨h1, h2, h3, h4⟩
      · exact RdPhase.noConfusion h1
      · exact RdPhase.noConfusion h1
      · exact CoPhase.noConfusion h2
      · have h3' : t.count PPEvent.read = t.count PPEvent.handback + 1 := h3
        have h4' : t.count PPEvent.append = t.count PPEvent.handback + 1 := h4
        refine Or.inl ⟨rfl, rfl, ?_, ?_⟩
        · show (PPEvent.handback :: t).count PPEvent.read =
            (PPEvent.handback :: t).count PPEvent.handback
          rw [List.count_cons_self,
            List.count_cons_of_ne (show PPEvent.read ≠ PPEvent.handback by decide) t]
          omega
        · show (PPEvent.handback :: t).count PPEvent.append =
            (PPEvent.handback :: t).count PPEvent.handback
          rw [List.count_cons_self,
            List.count_cons_of_ne (show PPEvent.append ≠ PPEvent.handback by decide) t]
          omega

/-- Claim C7: in every reachable state of the buffer hand-back protocol, at
most one party is away from the channel holding the buffer, the counts obey
`handbacks ≤ appends ≤ reads ≤ handbacks + 1`, and whenever the reader is
about to issue its next read every byte slice read so far has already been
appended by the consumer and handed back — the (k+1)-th read is never
issued before the k-th hand-back. -/
theorem pingpong_strict_alternation (s : PPState) (h : PPReachable s) :
    ¬(s.rd ≠ RdPhase.waiting ∧ s.co ≠ CoPhase.waiting) ∧
    (s.rd = RdPhase.toRead →
      s.trace.count PPEvent.read = s.trace.count PPEvent.handback ∧
      s.trace.count PPEvent.read = s.trace.count PPEvent.append) ∧
    s.trace.count PPEvent.read ≤ s.trace.count PPEvent.handback + 1 ∧
    s.trace.count PPEvent.handback ≤ s.trace.count PPEvent.append ∧
    s.trace.count PPEvent.append ≤ s.trace.count PPEvent.read := by
  have hi := PPInv_reachable s h
  rcases hi with ⟨h1, h2, h3, h4⟩ | ⟨h1, h2, h3, h4⟩ | ⟨h1, h2, h3, h4⟩ |
    ⟨h1, h2, h3, h4⟩ <;>
    refine ⟨by simp [h1, h2], ?_, by omega, by omega, by omega⟩ <;>
    · intro hr
      rw [h1] at hr
      first
      | exact ⟨h3, by omega⟩
      | exact absurd hr (by decide)

/-- Witness for claim C7 at the concrete state reached after one full
read / hand-off / append / hand-back round. -/
theorem pingpong_strict_alternation_witness :
    ¬((⟨RdPhase.toRead, CoPhase.waiting,
        [PPEvent.handback, PPEvent.append, PPEvent.read]⟩ : PPState).rd ≠
          RdPhase.waiting ∧
      (⟨RdPhase.toRead, CoPhase.waiting,
        [PPEvent.handback, PPEvent.append, PPEvent.read]⟩ : PPState).co ≠
          CoPhase.waiting) ∧
    ((⟨RdPhase.toRead, CoPhase.waiting,
        [PPEvent.handback, PPEvent.append, PPEvent.read]⟩ : PPState).rd =
          RdPhase.toRead →
      [PPEvent.handback, PPEvent.append, PPEvent.read].count PPEvent.read =
        [PPEvent.handback, PPEvent.append, PPEvent.read].count PPEvent.handback ∧
      [PPEvent.handback, PPEvent.append, PPEvent.read].count PPEvent.read =
        [PPEvent.handback, PPEvent.append, PPEvent.read].count PPEvent.append) ∧
    [PPEvent.handback, PPEvent.append, PPEvent.read].count PPEvent.read ≤
      [PPEvent.handback, PPEvent.append, PPEvent.read].count PPEvent.handback + 1 ∧
    [PPEvent.handback, PPEvent.append, PPEvent.read].count PPEvent.handback ≤
      [PPEvent.handback, PPEvent.append, PPEvent.read].count PPEvent.append ∧
    [PPEvent.handback, PPEvent.append, PPEvent.read].count PPEvent.append ≤
      [PPEvent.handback, PPEvent.append, PPEvent.read].count PPEvent.read :=
  pingpong_strict_alternation
    ⟨RdPhase.toRead, CoPhase.waiting,
      [PPEvent.handback, PPEvent.append, PPEvent.read]⟩
    (Relation.ReflTransGen.tail
      (Relation.ReflTransGen.tail
        (Relation.ReflTransGen.tail
          (Relation.ReflTransGen.tail Relation.ReflTransGen.refl
            (PPStep.read CoPhase.waiting []))
          (PPStep.handoff [PPEvent.read]))
        (PPStep.append RdPhase.waiting [PPEvent.read]))
      (PPStep.handback [PPEvent.append, PPEvent.read]))

end Termbox


